import Mathlib

/-
Verification development for the change-log-o-matic tool (src/main.py).

The embedding below translates the manifest-diff engine and the
enrichment cache/fetch orchestrator into Lean:

* Python dicts are modelled as ordered association lists with unique keys
  (`Dict`), with insertion semantics matching CPython dicts: inserting an
  existing key replaces its value in place, a new key is appended; iteration
  follows insertion order.
* Manifests are records with an optional `files` list (`manifest.get('files',
  [])` becomes `files.getD []`).
* Network state is an oracle `Net : String → Option (Option String)`:
  `none` models a transport error or a non-200 status for that URL;
  `some t` models a 200 response whose prioritized selector extraction
  produced `t : Option String` (`none` when no selector matched).
* The thread-pool orchestration is sequentialized: each dispatched task
  touches only its own cache key, and dispatched keys are pairwise distinct,
  so the sequential execution is observationally equivalent for the
  properties proved here.
-/

namespace ChangeLog

/-- Ordered association list modelling a Python dict (keys unique by
construction when built from `[]` via `dictInsert`). -/
abbrev Dict (α β : Type) : Type := List (α × β)

/-- Python `k in d`. -/
def dictContains {α β : Type} [DecidableEq α] : Dict α β → α → Bool
  | [], _ => false
  | p :: rest, k => p.1 = k || dictContains rest k

/-- Python `d[k]` (as an `Option`, `none` when absent). -/
def dictGet {α β : Type} [DecidableEq α] : Dict α β → α → Option β
  | [], _ => none
  | p :: rest, k => if p.1 = k then some p.2 else dictGet rest k

/-- Python `d[k] = v`: replace in place when the key exists, else append.
On key-unique dicts this is exactly CPython dict assignment. -/
def dictInsert {α β : Type} [DecidableEq α] : Dict α β → α → β → Dict α β
  | [], k, v => [(k, v)]
  | p :: rest, k, v => if p.1 = k then (k, v) :: rest else p :: dictInsert rest k v

/-- One entry of a manifest `files` list: `{projectID, fileID, required}`. -/
structure FileEntry where
  projectID : Int
  fileID : Int
  required : Bool
deriving DecidableEq, Repr

/-- A manifest as seen by `compare_manifests`: the `files` key may be absent
(`none`), matching `manifest.get('files', [])`. Other manifest metadata is
irrelevant to the core and omitted. -/
structure Manifest where
  files : Option (List FileEntry)
deriving DecidableEq, Repr

/-- One update record `{projectID, old_fileID, new_fileID}`. -/
structure Update where
  projectID : Int
  old_fileID : Int
  new_fileID : Int
deriving DecidableEq, Repr

/-- The triple returned by `compare_manifests`. -/
structure DiffResult where
  additions : List FileEntry
  removals : List FileEntry
  updates : List Update
deriving DecidableEq, Repr

/-- Python dict comprehension over a list keyed by a given key function;
later entries overwrite earlier ones for the same key. -/
def dictOf {α β : Type} [DecidableEq α] (key : β → α) (l : List β) : Dict α β :=
  l.foldl (fun d item => dictInsert d (key item) item) []

/-- Embedding of `compare_manifests` (src/main.py lines 30-55). -/
def compare_manifests (old_manifest new_manifest : Manifest) : DiffResult :=
  let old_files := dictOf (fun e => e.projectID) (old_manifest.files.getD [])
  let new_files := dictOf (fun e => e.projectID) (new_manifest.files.getD [])
  let additions := (new_files.filter (fun p => !dictContains old_files p.1)).map Prod.snd
  let removals := (old_files.filter (fun p => !dictContains new_files p.1)).map Prod.snd
  let updates := old_files.filterMap (fun p =>
    match dictGet new_files p.1 with
    | none => none
    | some newEntry =>
      if p.2.fileID ≠ newEntry.fileID then
        some { projectID := p.1, old_fileID := p.2.fileID, new_fileID := newEntry.fileID }
      else none)
  { additions := additions, removals := removals, updates := updates }

/-- The last element of `l` whose key is `k` (spec-side notion of the
"last occurrence per projectID"). -/
def lastOccurrence {α β : Type} [DecidableEq α] (key : β → α) : List β → α → Option β
  | [], _ => none
  | e :: rest, k =>
    match lastOccurrence key rest k with
    | some x => some x
    | none => if key e = k then some e else none

theorem dictGet_dictInsert_self {α β : Type} [DecidableEq α] (d : Dict α β) (k : α) (v : β) :
    dictGet (dictInsert d k v) k = some v := by
  induction d with
  | nil => simp [dictInsert, dictGet]
  | cons p rest ih =>
    by_cases h : p.1 = k
    · simp [dictInsert, dictGet, h]
    · simp [dictInsert, dictGet, h, ih]

theorem dictGet_dictInsert_ne {α β : Type} [DecidableEq α] (d : Dict α β) (k k' : α) (v : β)
    (h : k' ≠ k) : dictGet (dictInsert d k v) k' = dictGet d k' := by
  have hk : ¬(k = k') := fun hh => h hh.symm
  induction d with
  | nil => simp [dictInsert, dictGet, hk]
  | cons p rest ih =>
    by_cases hp : p.1 = k
    · subst hp
      simp [dictInsert, dictGet, hk, h]
    · by_cases hp' : p.1 = k'
      · simp [dictInsert, dictGet, hp, hp', h]
      · simp [dictInsert, dictGet, hp, hp', ih]

theorem dictGet_foldl {α β γ : Type} [DecidableEq α] (key : β → α) (val : β → γ) :
    ∀ (l : List β) (d : Dict α γ) (k : α),
      dictGet (l.foldl (fun d x => dictInsert d (key x) (val x)) d) k =
        match lastOccurrence key l k with
        | some x => some (val x)
        | none => dictGet d k := by
  intro l
  induction l with
  | nil => intro d k; simp [lastOccurrence]
  | cons e rest ih =>
    intro d k
    simp only [List.foldl_cons, lastOccurrence]
    rw [ih]
    cases hrest : lastOccurrence key rest k with
    | some x => simp
    | none =>
      by_cases hk : key e = k
      · subst hk; simp [dictGet_dictInsert_self]
      · simp [hk, dictGet_dictInsert_ne _ _ _ _ (fun hh => hk hh.symm)]

theorem dictGet_dictOf {α β : Type} [DecidableEq α] (key : β → α) (l : List β) (k : α) :
    dictGet (dictOf key l) k =
      match lastOccurrence key l k with
      | some x => some x
      | none => none := by
  have := dictGet_foldl key (fun x => x) l [] k
  simpa [dictOf, dictGet] using this

theorem dictContains_iff_mem_keys {α β : Type} [DecidableEq α] (d : Dict α β) (k : α) :
    dictContains d k = true ↔ k ∈ d.map Prod.fst := by
  induction d with
  | nil => simp [dictContains]
  | cons p rest ih =>
    simp only [dictContains, List.map_cons, List.mem_cons, Bool.or_eq_true,
      decide_eq_true_eq, ih]
    constructor
    · rintro (h | h)
      · exact Or.inl h.symm
      · exact Or.inr h
    · rintro (h | h)
      · exact Or.inl h.symm
      · exact Or.inr h

theorem keys_dictInsert {α β : Type} [DecidableEq α] (d : Dict α β) (k : α) (v : β) :
    (dictInsert d k v).map Prod.fst =
      if dictContains d k then d.map Prod.fst else d.map Prod.fst ++ [k] := by
  induction d with
  | nil => simp [dictInsert, dictContains]
  | cons p rest ih =>
    by_cases hp : p.1 = k
    · simp [dictInsert, dictContains, hp]
    · by_cases hc : dictContains rest k
      · simp [dictInsert, dictContains, hp, hc, ih]
      · simp [dictInsert, dictContains, hp, hc, ih]

theorem nodupKeys_dictInsert {α β : Type} [DecidableEq α] (d : Dict α β) (k : α) (v : β)
    (h : (d.map Prod.fst).Nodup) : ((dictInsert d k v).map Prod.fst).Nodup := by
  rw [keys_dictInsert]
  by_cases hc : dictContains d k
  · simpa [hc] using h
  · have hk : k ∉ d.map Prod.fst := fun hmem =>
      hc ((dictContains_iff_mem_keys d k).mpr hmem)
    simp only [hc, if_neg, Bool.false_eq_true, if_false]
    rw [List.nodup_append]
    exact ⟨h, List.nodup_singleton k, by simpa using hk⟩

theorem nodupKeys_dictOf {α β : Type} [DecidableEq α] (key : β → α) (l : List β) :
    ((dictOf key l).map Prod.fst).Nodup := by
  suffices h : ∀ (d : Dict α β), (d.map Prod.fst).Nodup →
      ((l.foldl (fun d x => dictInsert d (key x) x) d).map Prod.fst).Nodup from
    h [] (by simp)
  induction l with
  | nil => intro d hd; simpa using hd
  | cons e rest ih =>
    intro d hd
    exact ih _ (nodupKeys_dictInsert d (key e) e hd)

theorem dictGet_of_mem {α β : Type} [DecidableEq α] {d : Dict α β} {k : α} {v : β}
    (hnd : (d.map Prod.fst).Nodup) (hmem : (k, v) ∈ d) : dictGet d k = some v := by
  induction d with
  | nil => cases hmem
  | cons p rest ih =>
    rcases List.mem_cons.mp hmem with h | h
    · rw [← h]; simp [dictGet]
    · rw [List.map_cons, List.nodup_cons] at hnd
      have hk : k ∈ rest.map Prod.fst := List.mem_map.mpr ⟨(k, v), h, rfl⟩
      have hp : p.1 ≠ k := fun hh => hnd.1 (hh ▸ hk)
      simp [dictGet, hp, ih hnd.2 h]

theorem dictContains_of_mem {α β : Type} [DecidableEq α] {d : Dict α β} {p : α × β}
    (hp : p ∈ d) : dictContains d p.1 = true :=
  (dictContains_iff_mem_keys d p.1).mpr (List.mem_map.mpr ⟨p, hp, rfl⟩)

/-- C1: on the concrete example, `compare_manifests` of old manifest
`{files:[{projectID:1,fileID:10},{projectID:2,fileID:20}]}` against new
manifest `{files:[{projectID:2,fileID:21},{projectID:3,fileID:30}]}` returns
additions `[{projectID:3,fileID:30}]`, removals `[{projectID:1,fileID:10}]`
and updates `[{projectID:2,old_fileID:20,new_fileID:21}]`. -/
theorem claim1_end_to_end_example :
    compare_manifests
      { files := some [{ projectID := 1, fileID := 10, required := true },
                       { projectID := 2, fileID := 20, required := true }] }
      { files := some [{ projectID := 2, fileID := 21, required := true },
                       { projectID := 3, fileID := 30, required := true }] }
    = { additions := [{ projectID := 3, fileID := 30, required := true }],
        removals := [{ projectID := 1, fileID := 10, required := true }],
        updates := [{ projectID := 2, old_fileID := 20, new_fileID := 21 }] } := by
  decide

/-- C2: when a manifest `files` list holds two or more entries with the same
`projectID`, the lookup map the Differ builds resolves that `projectID` to the
last such entry (later entries overwrite earlier ones during dict
construction); since `compare_manifests` reads entries only through this map,
the last entry decides additions/removals membership and the fileIDs recorded
in updates. -/
theorem claim2_last_occurrence_wins (l : List FileEntry) (pid : Int)
    (hdup : 2 ≤ (l.filter (fun e => e.projectID = pid)).length) :
    dictGet (dictOf (fun e => e.projectID) l) pid =
      lastOccurrence (fun e => e.projectID) l pid := by
  rw [dictGet_dictOf]
  cases lastOccurrence (fun e => e.projectID) l pid <;> rfl

theorem claim2_witness :
    (2 ≤ (([{ projectID := 5, fileID := 100, required := true },
            { projectID := 5, fileID := 200, required := true }] :
              List FileEntry).filter (fun e => e.projectID = 5)).length)
    ∧ dictGet (dictOf (fun e => e.projectID)
        ([{ projectID := 5, fileID := 100, required := true },
          { projectID := 5, fileID := 200, required := true }] : List FileEntry)) 5 =
      lastOccurrence (fun e => e.projectID)
        ([{ projectID := 5, fileID := 100, required := true },
          { projectID := 5, fileID := 200, required := true }] : List FileEntry) 5 :=
  ⟨by decide, claim2_last_occurrence_wins _ 5 (by decide)⟩

/-- C7: for all manifests A, B, the projectIDs of `diff(A,B).additions` are
exactly the projectIDs of `diff(B,A).removals`, and vice versa. (In this
embedding the two lists are in fact identical.) -/
theorem claim7_symmetry (A B : Manifest) (pid : Int) :
    ((pid ∈ (compare_manifests A B).additions.map (fun e => e.projectID)) ↔
      (pid ∈ (compare_manifests B A).removals.map (fun e => e.projectID)))
    ∧ ((pid ∈ (compare_manifests A B).removals.map (fun e => e.projectID)) ↔
      (pid ∈ (compare_manifests B A).additions.map (fun e => e.projectID))) := by
  have h1 : (compare_manifests A B).additions = (compare_manifests B A).removals := rfl
  have h2 : (compare_manifests A B).removals = (compare_manifests B A).additions := rfl
  rw [h1, h2]
  exact ⟨Iff.rfl, Iff.rfl⟩

theorem filter_not_contains_self {α β : Type} [DecidableEq α] (d : Dict α β) :
    d.filter (fun p => !dictContains d p.1) = [] :=
  List.filter_eq_nil_iff.mpr (fun p hp => by simp [dictContains_of_mem hp])

theorem updates_self (d : Dict Int FileEntry) (hnd : (d.map Prod.fst).Nodup) :
    (d.filterMap (fun p =>
      match dictGet d p.1 with
      | none => none
      | some newEntry =>
        if p.2.fileID ≠ newEntry.fileID then
          some { projectID := p.1, old_fileID := p.2.fileID,
                 new_fileID := newEntry.fileID }
        else none) : List Update) = [] := by
  apply List.filterMap_eq_nil_iff.mpr
  intro p hp
  have hget : dictGet d p.1 = some p.2 := dictGet_of_mem hnd (by simpa using hp)
  simp [hget]

/-- C8: for any manifest with unique projectIDs, diffing it against itself
yields empty additions, removals and updates. -/
theorem claim8_diff_self (A : Manifest)
    (huniq : ((A.files.getD []).map (fun e => e.projectID)).Nodup) :
    compare_manifests A A = { additions := [], removals := [], updates := [] } := by
  obtain ⟨f⟩ := A
  simp only [compare_manifests, filter_not_contains_self, List.map_nil,
    updates_self _ (nodupKeys_dictOf _ _)]

theorem claim8_witness :
    ((((Manifest.mk (some [{ projectID := 1, fileID := 10, required := true },
        { projectID := 2, fileID := 20, required := false }])).files.getD []).map
        (fun e => e.projectID)).Nodup)
    ∧ compare_manifests
        (Manifest.mk (some [{ projectID := 1, fileID := 10, required := true },
          { projectID := 2, fileID := 20, required := false }]))
        (Manifest.mk (some [{ projectID := 1, fileID := 10, required := true },
          { projectID := 2, fileID := 20, required := false }])) =
      { additions := [], removals := [], updates := [] } :=
  ⟨by decide, claim8_diff_self _ (by decide)⟩

/-- C10: `compare_manifests` tolerates manifests lacking the `files` key
entirely (it is total and treats the missing list as empty): every deduplicated
entry of the other manifest becomes an addition (resp. removal), updates are
empty, and when both lack `files` all three lists are empty. -/
theorem claim10_missing_files_key (files : Option (List FileEntry)) :
    compare_manifests { files := none } { files := files } =
      { additions := (dictOf (fun e => e.projectID) (files.getD [])).map Prod.snd,
        removals := [], updates := [] }
    ∧ compare_manifests { files := files } { files := none } =
      { additions := [],
        removals := (dictOf (fun e => e.projectID) (files.getD [])).map Prod.snd,
        updates := [] }
    ∧ compare_manifests { files := none } { files := none } =
      { additions := [], removals := [], updates := [] }
    ∧ compare_manifests { files := none } { files := files } =
        compare_manifests { files := some [] } { files := files }
    ∧ compare_manifests { files := files } { files := none } =
        compare_manifests { files := files } { files := some [] } := by
  refine ⟨?_, ?_, rfl, rfl, rfl⟩
  · simp [compare_manifests, dictOf, dictContains, dictGet]
  · simp [compare_manifests, dictOf, dictContains, dictGet]

/-- Enrichment record returned by `scrape_mod_info`: `{id, name, url}`. -/
structure ModInfo where
  id : Int
  name : String
  url : String
deriving DecidableEq, Repr

/-- Enrichment record returned by `scrape_file_info`:
`{id, fileName, displayName, url}` (note `id` is the file id). -/
structure FileInfo where
  id : Int
  fileName : String
  displayName : String
  url : String
deriving DecidableEq, Repr

/-- Network oracle. `net url = none` models a transport error
(`requests.RequestException`, also the caught `AttributeError`) or a non-200
status for that URL; `net url = some t` models a 200 response whose
prioritized selector extraction produced `t : Option String` (`none` when no
selector matched, in which case the code falls back to the synthetic label). -/
abbrev Net : Type := String → Option (Option String)

/-- The ordered candidate URL list of `scrape_mod_info` (src lines 193-196). -/
def mod_urls (project_id : Int) : List String :=
  ["https://www.curseforge.com/minecraft/mc-mods/" ++ toString project_id,
   "https://legacy.curseforge.com/minecraft/mc-mods/p" ++ toString project_id]

/-- The ordered candidate URL list of `scrape_file_info` (src lines 279-282). -/
def file_urls (project_id file_id : Int) : List String :=
  ["https://www.curseforge.com/minecraft/mc-mods/" ++ toString project_id ++
      "/files/" ++ toString file_id,
   "https://legacy.curseforge.com/minecraft/mc-mods/p" ++ toString project_id ++
      "/files/" ++ toString file_id]

/-- The URL loop of `scrape_mod_info` (src lines 198-241): first URL that
yields a 200 response wins; its extracted title (or the synthetic label when no
selector matched) becomes the record name. -/
def try_mod_urls (net : Net) (project_id : Int) : List String → Option ModInfo
  | [] => none
  | url :: rest =>
    match net url with
    | none => try_mod_urls net project_id rest
    | some title =>
      some { id := project_id,
             name := title.getD ("Project-" ++ toString project_id),
             url := url }

/-- The URL loop of `scrape_file_info` (src lines 284-326). -/
def try_file_urls (net : Net) (project_id file_id : Int) : List String → Option FileInfo
  | [] => none
  | url :: rest =>
    match net url with
    | none => try_file_urls net project_id file_id rest
    | some title =>
      some { id := file_id,
             fileName := title.getD ("File-" ++ toString file_id),
             displayName := title.getD ("File-" ++ toString file_id),
             url := url }

/-- The placeholder returned by `scrape_mod_info` when every candidate URL
fails (src lines 247-251). -/
def minimal_mod_info (project_id : Int) : ModInfo :=
  { id := project_id,
    name := "Project-" ++ toString project_id,
    url := "https://www.curseforge.com/minecraft/mc-mods/" ++ toString project_id }

/-- The placeholder returned by `scrape_file_info` when every candidate URL
fails (src lines 332-337). -/
def minimal_file_info (project_id file_id : Int) : FileInfo :=
  { id := file_id,
    fileName := "File-" ++ toString file_id,
    displayName := "File-" ++ toString file_id,
    url := "https://www.curseforge.com/minecraft/mc-mods/" ++ toString project_id ++
      "/files/" ++ toString file_id }

/-- The on-disk mod cache `mods/{projectID}.json`, modelled as a key-unique
dict from project id to record. -/
abbrev ModCache : Type := Dict Int ModInfo

/-- The on-disk file cache `files/{projectID}_{fileID}.json`. -/
abbrev FileCache : Type := Dict (Int × Int) FileInfo

/-- Embedding of `scrape_mod_info` (src lines 174-257). The optional cache is
checked first; on a miss the URL loop runs and the obtained record (real or
placeholder) is written back to the cache. The returned pair is the record and
the cache state after the call. -/
def scrape_mod_info (net : Net) (project_id : Int) (c? : Option ModCache) :
    ModInfo × Option ModCache :=
  match c? with
  | some cache =>
    match dictGet cache project_id with
    | some cached => (cached, some cache)
    | none =>
      match try_mod_urls net project_id (mod_urls project_id) with
      | some info => (info, some (dictInsert cache project_id info))
      | none =>
        (minimal_mod_info project_id,
         some (dictInsert cache project_id (minimal_mod_info project_id)))
  | none =>
    match try_mod_urls net project_id (mod_urls project_id) with
    | some info => (info, none)
    | none => (minimal_mod_info project_id, none)

/-- Embedding of `scrape_file_info` (src lines 260-343). -/
def scrape_file_info (net : Net) (project_id file_id : Int) (c? : Option FileCache) :
    FileInfo × Option FileCache :=
  match c? with
  | some cache =>
    match dictGet cache (project_id, file_id) with
    | some cached => (cached, some cache)
    | none =>
      match try_file_urls net project_id file_id (file_urls project_id file_id) with
      | some info => (info, some (dictInsert cache (project_id, file_id) info))
      | none =>
        (minimal_file_info project_id file_id,
         some (dictInsert cache (project_id, file_id)
           (minimal_file_info project_id file_id)))
  | none =>
    match try_file_urls net project_id file_id (file_urls project_id file_id) with
    | some info => (info, none)
    | none => (minimal_file_info project_id file_id, none)

/-- The deduplicated project-id list of `scrape_all_mod_info`
(`project_ids = list(set(...))`, src lines 357-361). Python set iteration
order is unspecified; the model fixes one deduplication order
(`List.dedup`), which no proved property depends on. -/
def uniquePids (manifest : Manifest) : List Int :=
  ((manifest.files.getD []).map (fun e => e.projectID)).dedup

/-- The cache pre-check of `scrape_all_mod_info` (src lines 366-371): the
entries resolved directly from the cache, in iteration order. -/
def cacheHits (c? : Option ModCache) (pids : List Int) : List (Int × ModInfo) :=
  match c? with
  | none => []
  | some cache => pids.filterMap (fun pid => (dictGet cache pid).map (fun i => (pid, i)))

/-- The project ids remaining after the cache pre-check, i.e. the set that is
dispatched to the fetcher (src lines 366-378). -/
def cacheMisses (c? : Option ModCache) (pids : List Int) : List Int :=
  match c? with
  | none => pids
  | some cache => pids.filter (fun pid => (dictGet cache pid).isNone)

/-- A dispatched per-key task: given the project id and the current cache it
either completes with a record and an updated cache, or raises (models the
`except Exception` around `future.result()`, src lines 381-389). -/
abbrev ModTask : Type := Int → Option ModCache → Except String (ModInfo × Option ModCache)

/-- The concrete dispatched task of the source: `scrape_mod_info`, which never
raises in this semantics. -/
def scrapeModTask (net : Net) : ModTask :=
  fun pid c? => Except.ok (scrape_mod_info net pid c?)

/-- Sequentialized execution of the dispatched tasks (src lines 377-389): a
completed task's record is inserted into the result map; a raised exception is
caught and its key skipped. The thread pool may be sequentialized because each
task reads and writes only its own (distinct) cache key. -/
def runTasks (task : ModTask) : List Int → Option ModCache → List (Int × ModInfo) × Option ModCache
  | [], c? => ([], c?)
  | pid :: rest, c? =>
    match task pid c? with
    | Except.ok (info, c') =>
      let r := runTasks task rest c'
      ((pid, info) :: r.1, r.2)
    | Except.error _ => runTasks task rest c?

/-- Result of one orchestration call: the result map (as an ordered key-unique
association list), the final cache state, and the list of keys dispatched to
the fetcher. -/
structure ScrapeAllResult where
  mod_info : List (Int × ModInfo)
  cache : Option ModCache
  dispatched : List Int
deriving DecidableEq, Repr

/-- Embedding of `scrape_all_mod_info` (src lines 346-391), generic in the
dispatched task so that unexpected task exceptions can be expressed. -/
def scrape_all_mod_info_gen (task : ModTask) (manifest : Manifest)
    (c? : Option ModCache) : ScrapeAllResult :=
  { mod_info := cacheHits c? (uniquePids manifest) ++
      (runTasks task (cacheMisses c? (uniquePids manifest)) c?).1,
    cache := (runTasks task (cacheMisses c? (uniquePids manifest)) c?).2,
    dispatched := cacheMisses c? (uniquePids manifest) }

/-- `scrape_all_mod_info` as written: the dispatched task is `scrape_mod_info`. -/
def scrape_all_mod_info (net : Net) (manifest : Manifest) (c? : Option ModCache) :
    ScrapeAllResult :=
  scrape_all_mod_info_gen (scrapeModTask net) manifest c?

/-- The record `scrape_mod_info` computes on a cache miss: the first successful
candidate's record, or the placeholder when all candidates fail. -/
def modFetch (net : Net) (project_id : Int) : ModInfo :=
  (try_mod_urls net project_id (mod_urls project_id)).getD (minimal_mod_info project_id)

/-- A dispatched task whose outcome depends only on its key: outcome `f pid`,
writing its own cache key on completion — exactly how `scrape_mod_info`
behaves for a dispatched (cache-missing) key, plus an abstract failure
outcome. -/
def pureModTask (f : Int → Except String ModInfo) : ModTask :=
  fun pid c? =>
    match f pid with
    | Except.ok info => Except.ok (info, c?.map (fun c => dictInsert c pid info))
    | Except.error e => Except.error e

/-- C5: the Fetcher is total (it returns a record in every case, never raising
outward), and when every candidate URL fails — transport error or non-success
status on each — it returns the synthetic placeholder record whose display
name is the fallback label (Project-id / File-id) and whose URL is the first
candidate's URL. -/
theorem claim5_fetcher_placeholder (net : Net) (project_id file_id : Int)
    (hmod : ∀ u ∈ mod_urls project_id, net u = none)
    (hfile : ∀ u ∈ file_urls project_id file_id, net u = none) :
    scrape_mod_info net project_id none = (minimal_mod_info project_id, none)
    ∧ (minimal_mod_info project_id).name = "Project-" ++ toString project_id
    ∧ (mod_urls project_id).head? = some (minimal_mod_info project_id).url
    ∧ scrape_file_info net project_id file_id none =
        (minimal_file_info project_id file_id, none)
    ∧ (minimal_file_info project_id file_id).fileName = "File-" ++ toString file_id
    ∧ (minimal_file_info project_id file_id).displayName = "File-" ++ toString file_id
    ∧ (file_urls project_id file_id).head? =
        some (minimal_file_info project_id file_id).url := by
  have hm1 : net ("https://www.curseforge.com/minecraft/mc-mods/" ++
      toString project_id) = none := hmod _ (by simp [mod_urls])
  have hm2 : net ("https://legacy.curseforge.com/minecraft/mc-mods/p" ++
      toString project_id) = none := hmod _ (by simp [mod_urls])
  have hf1 : net ("https://www.curseforge.com/minecraft/mc-mods/" ++
      toString project_id ++ "/files/" ++ toString file_id) = none :=
    hfile _ (by simp [file_urls])
  have hf2 : net ("https://legacy.curseforge.com/minecraft/mc-mods/p" ++
      toString project_id ++ "/files/" ++ toString file_id) = none :=
    hfile _ (by simp [file_urls])
  refine ⟨?_, rfl, rfl, ?_, rfl, rfl, rfl⟩
  · simp [scrape_mod_info, mod_urls, try_mod_urls, hm1, hm2]
  · simp [scrape_file_info, file_urls, try_file_urls, hf1, hf2]

theorem claim5_witness :
    (∀ u ∈ mod_urls 7, (fun _ => (none : Option (Option String))) u = none)
    ∧ (∀ u ∈ file_urls 7 3, (fun _ => (none : Option (Option String))) u = none)
    ∧ (scrape_mod_info (fun _ => none) 7 none = (minimal_mod_info 7, none)
       ∧ (minimal_mod_info 7).name = "Project-" ++ toString (7 : Int)
       ∧ (mod_urls 7).head? = some (minimal_mod_info 7).url
       ∧ scrape_file_info (fun _ => none) 7 3 none = (minimal_file_info 7 3, none)
       ∧ (minimal_file_info 7 3).fileName = "File-" ++ toString (3 : Int)
       ∧ (minimal_file_info 7 3).displayName = "File-" ++ toString (3 : Int)
       ∧ (file_urls 7 3).head? = some (minimal_file_info 7 3).url) :=
  ⟨fun _ _ => rfl, fun _ _ => rfl,
   claim5_fetcher_placeholder (fun _ => none) 7 3 (fun _ _ => rfl) (fun _ _ => rfl)⟩

theorem runTasks_keys_of_ok (task : ModTask)
    (hok : ∀ pid c, ∃ r, task pid c = Except.ok r) :
    ∀ (l : List Int) (c? : Option ModCache),
      ((runTasks task l c?).1).map Prod.fst = l := by
  intro l
  induction l with
  | nil => intro c?; rfl
  | cons pid rest ih =>
    intro c?
    obtain ⟨⟨info, c'⟩, hr⟩ := hok pid c?
    simp [runTasks, hr, ih]

theorem cacheHits_keys (cache : ModCache) (pids : List Int) :
    (cacheHits (some cache) pids).map Prod.fst =
      pids.filter (fun pid => (dictGet cache pid).isSome) := by
  induction pids with
  | nil => rfl
  | cons pid rest ih =>
    cases h : dictGet cache pid with
    | none => simpa [cacheHits, List.filterMap_cons, h, List.filter_cons] using ih
    | some info => simpa [cacheHits, List.filterMap_cons, h, List.filter_cons] using ih

theorem hits_misses_perm (c? : Option ModCache) (pids : List Int) :
    ((cacheHits c? pids).map Prod.fst ++ cacheMisses c? pids).Perm pids := by
  cases c? with
  | none =>
    show ((([] : List (Int × ModInfo)).map Prod.fst ++ pids)).Perm pids
    simp
  | some cache =>
    rw [cacheHits_keys]
    have hmiss : cacheMisses (some cache) pids =
        pids.filter (fun pid => !(dictGet cache pid).isSome) := by
      show pids.filter _ = _
      apply List.filter_congr
      intro pid _
      cases dictGet cache pid <;> rfl
    rw [hmiss]
    exact List.filter_append_perm _ pids

theorem mem_cacheHits {cache : ModCache} {pids : List Int} {p : Int × ModInfo}
    (hp : p ∈ cacheHits (some cache) pids) :
    dictGet cache p.1 = some p.2 ∧ p.1 ∈ pids := by
  obtain ⟨pid, hpid, hmap⟩ := List.mem_filterMap.mp hp
  cases h : dictGet cache pid with
  | none => rw [h] at hmap; cases hmap
  | some info =>
    rw [h] at hmap
    have hp2 : (pid, info) = p := Option.some.inj hmap
    rw [← hp2]
    exact ⟨h, hpid⟩

/-- C3: for every manifest with N distinct project identifiers, when the
fetcher never raises the orchestrator returns exactly one entry per unique
project identifier (size N) — the result keys are a permutation of the
deduplicated project ids — each entry is resolved from the cache or from a
dispatched fetch, and each key is dispatched at most once (the dispatched list
is duplicate-free and drawn from the unique ids). -/
theorem claim3_orchestrator_complete (task : ModTask) (manifest : Manifest)
    (c? : Option ModCache)
    (hok : ∀ pid c, ∃ r, task pid c = Except.ok r) :
    ((scrape_all_mod_info_gen task manifest c?).mod_info.map Prod.fst).Perm
        (uniquePids manifest)
    ∧ (scrape_all_mod_info_gen task manifest c?).mod_info.length =
        (uniquePids manifest).length
    ∧ (scrape_all_mod_info_gen task manifest c?).dispatched.Nodup
    ∧ (∀ pid ∈ (scrape_all_mod_info_gen task manifest c?).dispatched,
        pid ∈ uniquePids manifest)
    ∧ (∀ p ∈ (scrape_all_mod_info_gen task manifest c?).mod_info,
        p ∈ cacheHits c? (uniquePids manifest) ∨
          p.1 ∈ (scrape_all_mod_info_gen task manifest c?).dispatched) := by
  have hperm : ((scrape_all_mod_info_gen task manifest c?).mod_info.map Prod.fst).Perm
      (uniquePids manifest) := by
    show ((cacheHits c? (uniquePids manifest) ++
      (runTasks task (cacheMisses c? (uniquePids manifest)) c?).1).map Prod.fst).Perm _
    rw [List.map_append, runTasks_keys_of_ok task hok]
    exact hits_misses_perm c? _
  have hnodup_pids : (uniquePids manifest).Nodup := List.nodup_dedup _
  have hnodup_disp : (scrape_all_mod_info_gen task manifest c?).dispatched.Nodup := by
    show (cacheMisses c? (uniquePids manifest)).Nodup
    cases c? with
    | none => exact hnodup_pids
    | some cache => exact hnodup_pids.filter _
  refine ⟨hperm, ?_, hnodup_disp, ?_, ?_⟩
  · have := hperm.length_eq
    simpa using this
  · intro pid hpid
    show pid ∈ uniquePids manifest
    have : pid ∈ cacheMisses c? (uniquePids manifest) := hpid
    cases c? with
    | none => exact this
    | some cache => exact List.mem_of_mem_filter this
  · intro p hp
    rcases List.mem_append.mp hp with h | h
    · exact Or.inl h
    · right
      show p.1 ∈ cacheMisses c? (uniquePids manifest)
      have : p.1 ∈ ((runTasks task (cacheMisses c? (uniquePids manifest)) c?).1).map
          Prod.fst := List.mem_map.mpr ⟨p, h, rfl⟩
      rwa [runTasks_keys_of_ok task hok] at this

/-- Concrete task instance used only to witness claim 3. -/
def c3TaskW : ModTask := fun pid c? => Except.ok (ModInfo.mk pid "m" "u", c?)

/-- Concrete manifest instance used only to witness claim 3 (a duplicate
projectID, so deduplication is exercised). -/
def c3ManifestW : Manifest :=
  Manifest.mk (some [{ projectID := 1, fileID := 10, required := true },
    { projectID := 1, fileID := 11, required := true },
    { projectID := 2, fileID := 20, required := false }])

theorem c3TaskW_ok : ∀ (pid : Int) (c : Option ModCache), ∃ r, c3TaskW pid c = Except.ok r :=
  fun pid c => ⟨(ModInfo.mk pid "m" "u", c), rfl⟩

theorem claim3_witness :
    (∀ (pid : Int) (c : Option ModCache), ∃ r, c3TaskW pid c = Except.ok r)
    ∧ (((scrape_all_mod_info_gen c3TaskW c3ManifestW none).mod_info.map Prod.fst).Perm
          (uniquePids c3ManifestW)
       ∧ (scrape_all_mod_info_gen c3TaskW c3ManifestW none).mod_info.length =
          (uniquePids c3ManifestW).length
       ∧ (scrape_all_mod_info_gen c3TaskW c3ManifestW none).dispatched.Nodup
       ∧ (∀ pid ∈ (scrape_all_mod_info_gen c3TaskW c3ManifestW none).dispatched,
          pid ∈ uniquePids c3ManifestW)
       ∧ (∀ p ∈ (scrape_all_mod_info_gen c3TaskW c3ManifestW none).mod_info,
          p ∈ cacheHits none (uniquePids c3ManifestW)
          ∨ p.1 ∈ (scrape_all_mod_info_gen c3TaskW c3ManifestW none).dispatched)) :=
  ⟨c3TaskW_ok, claim3_orchestrator_complete c3TaskW c3ManifestW none c3TaskW_ok⟩

theorem filterMap_eq_map_of_forall_some {α β : Type} {f : α → Option β} {g : α → β} :
    ∀ {l : List α}, (∀ a ∈ l, f a = some (g a)) → l.filterMap f = l.map g := by
  intro l
  induction l with
  | nil => intro _; rfl
  | cons a rest ih =>
    intro h
    rw [List.filterMap_cons, h a (by simp), List.map_cons,
      ih (fun x hx => h x (by simp [hx]))]

theorem runTasks_pure (f : Int → Except String ModInfo) :
    ∀ (l : List Int) (c? : Option ModCache),
      (runTasks (pureModTask f) l c?).1 =
        l.filterMap (fun pid =>
          match f pid with
          | Except.ok info => some (pid, info)
          | Except.error _ => none) := by
  intro l
  induction l with
  | nil => intro c?; rfl
  | cons pid rest ih =>
    intro c?
    cases hf : f pid with
    | ok info => simp [runTasks, pureModTask, hf, ih, List.filterMap_cons]
    | error err => simp [runTasks, pureModTask, hf, ih, List.filterMap_cons]

theorem filterMap_fail_at_bad (f : Int → ModInfo) (e : String) (bad : Int) (l : List Int) :
    (l.filterMap (fun pid =>
      match (if pid = bad then Except.error e else Except.ok (f pid) :
          Except String ModInfo) with
      | Except.ok info => some (pid, info)
      | Except.error _ => none)) =
    (l.filter (fun pid => pid != bad)).map (fun pid => (pid, f pid)) := by
  induction l with
  | nil => rfl
  | cons a rest ih =>
    by_cases ha : a = bad
    · simp [List.filterMap_cons, List.filter_cons, ha, ih]
    · simp [List.filterMap_cons, List.filter_cons, ha, ih]

theorem length_filter_ne_of_nodup {l : List Int} {bad : Int}
    (hnd : l.Nodup) (hmem : bad ∈ l) :
    (l.filter (fun pid => pid != bad)).length + 1 = l.length := by
  induction l with
  | nil => cases hmem
  | cons a rest ih =>
    rcases List.mem_cons.mp hmem with ha | ha
    · have hrest : rest.filter (fun pid => pid != bad) = rest := by
        apply List.filter_eq_self.mpr
        intro x hx
        have hxa : x ≠ a := fun hh => (List.nodup_cons.mp hnd).1 (hh ▸ hx)
        simp [ha ▸ hxa]
      simp [List.filter_cons, ha.symm, hrest]
    · have hane : a ≠ bad := fun hh => (List.nodup_cons.mp hnd).1 (hh ▸ ha)
      have := ih (List.nodup_cons.mp hnd).2 ha
      simp [List.filter_cons, hane]
      omega

/-- C4: when, among the dispatched keys of one orchestration over N unique
keys, exactly one key's fetch raises, the exception is swallowed, the result
map has size N−1, the failing key is absent from it, and the result is exactly
the failure-free run's result with the failing key's entry removed (every
other record is unchanged). The dispatched task is modelled as a per-key pure
outcome that writes its own cache key on completion, which is how
`scrape_mod_info` behaves for a dispatched key. -/
theorem claim4_fault_isolation (f : Int → ModInfo) (e : String) (bad : Int)
    (manifest : Manifest) (c? : Option ModCache)
    (hbad : bad ∈ cacheMisses c? (uniquePids manifest)) :
    (scrape_all_mod_info_gen
        (pureModTask (fun pid => if pid = bad then Except.error e else Except.ok (f pid)))
        manifest c?).mod_info.length + 1 = (uniquePids manifest).length
    ∧ bad ∉ (scrape_all_mod_info_gen
        (pureModTask (fun pid => if pid = bad then Except.error e else Except.ok (f pid)))
        manifest c?).mod_info.map Prod.fst
    ∧ (scrape_all_mod_info_gen
        (pureModTask (fun pid => if pid = bad then Except.error e else Except.ok (f pid)))
        manifest c?).mod_info =
      ((scrape_all_mod_info_gen (pureModTask (fun pid => Except.ok (f pid)))
        manifest c?).mod_info).filter (fun p => p.1 != bad)
    ∧ (scrape_all_mod_info_gen (pureModTask (fun pid => Except.ok (f pid)))
        manifest c?).mod_info.length = (uniquePids manifest).length := by
  have hfail : (scrape_all_mod_info_gen
      (pureModTask (fun pid => if pid = bad then Except.error e else Except.ok (f pid)))
      manifest c?).mod_info =
      cacheHits c? (uniquePids manifest) ++
        ((cacheMisses c? (uniquePids manifest)).filter (fun pid => pid != bad)).map
          (fun pid => (pid, f pid)) := by
    show cacheHits c? (uniquePids manifest) ++
        (runTasks (pureModTask _) (cacheMisses c? (uniquePids manifest)) c?).1 = _
    rw [runTasks_pure, filterMap_fail_at_bad]
  have hokrun : (scrape_all_mod_info_gen (pureModTask (fun pid => Except.ok (f pid)))
      manifest c?).mod_info =
      cacheHits c? (uniquePids manifest) ++
        (cacheMisses c? (uniquePids manifest)).map (fun pid => (pid, f pid)) := by
    show cacheHits c? (uniquePids manifest) ++
        (runTasks (pureModTask _) (cacheMisses c? (uniquePids manifest)) c?).1 = _
    rw [runTasks_pure, filterMap_eq_map_of_forall_some (fun a _ => rfl)]
  have hnodup_pids : (uniquePids manifest).Nodup := List.nodup_dedup _
  have hnodup_misses : (cacheMisses c? (uniquePids manifest)).Nodup := by
    cases c? with
    | none => exact hnodup_pids
    | some cache => exact hnodup_pids.filter _
  have hlens : (cacheHits c? (uniquePids manifest)).length +
      (cacheMisses c? (uniquePids manifest)).length = (uniquePids manifest).length := by
    have := (hits_misses_perm c? (uniquePids manifest)).length_eq
    simpa using this
  have hbad_not_hit : ∀ p ∈ cacheHits c? (uniquePids manifest), p.1 ≠ bad := by
    intro p hp hpb
    cases c? with
    | none => cases hp
    | some cache =>
      have hmem := mem_cacheHits hp
      have hbadnone : (dictGet cache bad).isNone = true := by
        have := List.mem_filter.mp hbad
        exact this.2
      rw [← hpb, hmem.1] at hbadnone
      cases hbadnone
  refine ⟨?_, ?_, ?_, ?_⟩
  · rw [hfail]
    have := length_filter_ne_of_nodup hnodup_misses hbad
    simp only [List.length_append, List.length_map]
    omega
  · rw [hfail]
    intro hmem
    rw [List.map_append] at hmem
    rcases List.mem_append.mp hmem with h | h
    · obtain ⟨p, hp, hpb⟩ := List.mem_map.mp h
      exact hbad_not_hit p hp hpb
    · rw [List.map_map] at h
      obtain ⟨pid, hpid, hpb⟩ := List.mem_map.mp h
      have : pid ≠ bad := by simpa using (List.mem_filter.mp hpid).2
      exact this (by simpa using hpb)
  · rw [hfail, hokrun, List.filter_append]
    have h1 : (cacheHits c? (uniquePids manifest)).filter (fun p => p.1 != bad) =
        cacheHits c? (uniquePids manifest) := by
      apply List.filter_eq_self.mpr
      intro p hp
      simpa using hbad_not_hit p hp
    have h2 : ((cacheMisses c? (uniquePids manifest)).map
          (fun pid => (pid, f pid))).filter (fun p => p.1 != bad) =
        ((cacheMisses c? (uniquePids manifest)).filter (fun pid => pid != bad)).map
          (fun pid => (pid, f pid)) := by
      rw [List.filter_map]
      rfl
    rw [h1, h2]
  · rw [hokrun]
    simp only [List.length_append, List.length_map]
    exact hlens

/-- Concrete per-key record used only to witness claim 4. -/
def c4InfoW : Int → ModInfo := fun pid => ModInfo.mk pid "m" "u"

/-- Concrete manifest instance used only to witness claim 4. -/
def c4ManifestW : Manifest :=
  Manifest.mk (some [{ projectID := 1, fileID := 10, required := true },
    { projectID := 2, fileID := 20, required := false }])

theorem claim4_witness :
    ((1 : Int) ∈ cacheMisses none (uniquePids c4ManifestW))
    ∧ ((scrape_all_mod_info_gen
          (pureModTask (fun pid => if pid = 1 then Except.error "boom"
            else Except.ok (c4InfoW pid)))
          c4ManifestW none).mod_info.length + 1 = (uniquePids c4ManifestW).length
       ∧ (1 : Int) ∉ (scrape_all_mod_info_gen
          (pureModTask (fun pid => if pid = 1 then Except.error "boom"
            else Except.ok (c4InfoW pid)))
          c4ManifestW none).mod_info.map Prod.fst
       ∧ (scrape_all_mod_info_gen
          (pureModTask (fun pid => if pid = 1 then Except.error "boom"
            else Except.ok (c4InfoW pid)))
          c4ManifestW none).mod_info =
         ((scrape_all_mod_info_gen (pureModTask (fun pid => Except.ok (c4InfoW pid)))
          c4ManifestW none).mod_info).filter (fun p => p.1 != 1)
       ∧ (scrape_all_mod_info_gen (pureModTask (fun pid => Except.ok (c4InfoW pid)))
          c4ManifestW none).mod_info.length = (uniquePids c4ManifestW).length) :=
  ⟨by decide, claim4_fault_isolation c4InfoW "boom" 1 c4ManifestW none (by decide)⟩

theorem scrape_mod_info_miss (net : Net) (pid : Int) (cache : ModCache)
    (h : dictGet cache pid = none) :
    scrape_mod_info net pid (some cache) =
      (modFetch net pid, some (dictInsert cache pid (modFetch net pid))) := by
  cases htry : try_mod_urls net pid (mod_urls pid) with
  | none => simp [scrape_mod_info, h, htry, modFetch]
  | some info => simp [scrape_mod_info, h, htry, modFetch]

theorem runTasks_fresh (net : Net) :
    ∀ (l : List Int) (cache : ModCache), l.Nodup →
      (∀ pid ∈ l, dictGet cache pid = none) →
      runTasks (scrapeModTask net) l (some cache) =
        (l.map (fun pid => (pid, modFetch net pid)),
         some (l.foldl (fun c pid => dictInsert c pid (modFetch net pid)) cache)) := by
  intro l
  induction l with
  | nil => intro cache _ _; rfl
  | cons pid rest ih =>
    intro cache hnd hfresh
    have hmiss : dictGet cache pid = none := hfresh pid (by simp)
    have hstep := scrape_mod_info_miss net pid cache hmiss
    have hrest : ∀ q ∈ rest, dictGet (dictInsert cache pid (modFetch net pid)) q = none := by
      intro q hq
      have hne : q ≠ pid := fun hqe => (List.nodup_cons.mp hnd).1 (hqe ▸ hq)
      rw [dictGet_dictInsert_ne _ _ _ _ hne]
      exact hfresh q (List.mem_cons_of_mem _ hq)
    simp [runTasks, scrapeModTask, hstep,
      ih _ (List.nodup_cons.mp hnd).2 hrest, List.foldl_cons]

theorem lastOccurrence_eq_none {α β : Type} [DecidableEq α] (key : β → α)
    {l : List β} {k : α} (h : ∀ x ∈ l, key x ≠ k) : lastOccurrence key l k = none := by
  induction l with
  | nil => rfl
  | cons e rest ih =>
    have htail := ih (fun x hx => h x (List.mem_cons_of_mem _ hx))
    have hhead := h e (List.mem_cons_self _ _)
    simp [lastOccurrence, htail, hhead]

theorem lastOccurrence_id_of_mem {l : List Int} {q : Int} (h : q ∈ l) :
    lastOccurrence (fun x : Int => x) l q = some q := by
  induction l with
  | nil => cases h
  | cons a rest ih =>
    by_cases hq : q ∈ rest
    · simp [lastOccurrence, ih hq]
    · have ha : a = q := by
        rcases List.mem_cons.mp h with h1 | h2
        · exact h1.symm
        · exact absurd h2 hq
      have hnone : lastOccurrence (fun x : Int => x) rest q = none :=
        lastOccurrence_eq_none _ (fun x hx hxq => hq (hxq ▸ hx))
      simp [lastOccurrence, hnone, ha]

theorem dictGet_run1_cache (net : Net) (l : List Int) (cache : ModCache) (q : Int)
    (hq : q ∈ l) :
    dictGet (l.foldl (fun c pid => dictInsert c pid (modFetch net pid)) cache) q =
      some (modFetch net q) := by
  have := dictGet_foldl (fun pid : Int => pid) (modFetch net) l cache q
  rw [lastOccurrence_id_of_mem hq] at this
  exact this

/-- C6: running the orchestrator against an empty cache and then again against
the resulting warm cache yields zero dispatched fetches on the second run and
an identical result map (every record of the first run — real or placeholder —
was stored in the cache and is returned verbatim on the second run). -/
theorem claim6_cache_roundtrip (net : Net) (manifest : Manifest) :
    (scrape_all_mod_info net manifest
        (scrape_all_mod_info net manifest (some [])).cache).dispatched = []
    ∧ (scrape_all_mod_info net manifest
        (scrape_all_mod_info net manifest (some [])).cache).mod_info =
      (scrape_all_mod_info net manifest (some [])).mod_info := by
  have hnodup : (uniquePids manifest).Nodup := List.nodup_dedup _
  have hfresh : ∀ pid ∈ uniquePids manifest, dictGet ([] : ModCache) pid = none :=
    fun pid _ => rfl
  have hmiss1 : cacheMisses (some ([] : ModCache)) (uniquePids manifest) =
      uniquePids manifest := by
    apply List.filter_eq_self.mpr
    intro pid _
    rfl
  have hhits1 : cacheHits (some ([] : ModCache)) (uniquePids manifest) = [] := by
    apply List.filterMap_eq_nil_iff.mpr
    intro pid _
    rfl
  have hrun1 := runTasks_fresh net (uniquePids manifest) [] hnodup hfresh
  have hres1 : (scrape_all_mod_info net manifest (some [])).mod_info =
      (uniquePids manifest).map (fun pid => (pid, modFetch net pid)) := by
    show cacheHits (some []) (uniquePids manifest) ++
      (runTasks (scrapeModTask net)
        (cacheMisses (some []) (uniquePids manifest)) (some [])).1 = _
    rw [hmiss1, hhits1, hrun1]
    simp
  have hcache1 : (scrape_all_mod_info net manifest (some [])).cache =
      some ((uniquePids manifest).foldl
        (fun c pid => dictInsert c pid (modFetch net pid)) []) := by
    show (runTasks (scrapeModTask net)
        (cacheMisses (some []) (uniquePids manifest)) (some [])).2 = _
    rw [hmiss1, hrun1]
  have hwarm : ∀ q ∈ uniquePids manifest,
      dictGet ((uniquePids manifest).foldl
        (fun c pid => dictInsert c pid (modFetch net pid)) []) q =
        some (modFetch net q) :=
    fun q hq => dictGet_run1_cache net _ [] q hq
  have hmiss2 : cacheMisses (scrape_all_mod_info net manifest (some [])).cache
      (uniquePids manifest) = [] := by
    rw [hcache1]
    apply List.filter_eq_nil_iff.mpr
    intro pid hpid
    rw [hwarm pid hpid]
    simp
  have hhits2 : cacheHits (scrape_all_mod_info net manifest (some [])).cache
      (uniquePids manifest) =
      (uniquePids manifest).map (fun pid => (pid, modFetch net pid)) := by
    rw [hcache1]
    apply filterMap_eq_map_of_forall_some
    intro pid hpid
    rw [hwarm pid hpid]
    rfl
  constructor
  · show cacheMisses (scrape_all_mod_info net manifest (some [])).cache
      (uniquePids manifest) = []
    exact hmiss2
  · show cacheHits (scrape_all_mod_info net manifest (some [])).cache
        (uniquePids manifest) ++
      (runTasks (scrapeModTask net)
        (cacheMisses (scrape_all_mod_info net manifest (some [])).cache
          (uniquePids manifest))
        (scrape_all_mod_info net manifest (some [])).cache).1 = _
    rw [hmiss2, hhits2, hres1]
    simp [runTasks]

/-- The command-line configuration surface parsed by `main` (argparse, src
lines 610-619). The float default `0.5` is represented exactly by the rational
`1/2`. -/
structure Args where
  scrape : Bool
  no_scrape_files : Bool
  delay : Rat
  max_workers : Nat
  cache_dir : String
  no_cache : Bool
deriving Repr

/-- The argparse defaults (src lines 614-619). -/
def default_args : Args :=
  { scrape := false, no_scrape_files := false, delay := 1/2, max_workers := 3,
    cache_dir := ".cursecache", no_cache := false }

/-- The worker-pool width `scrape_all_mod_info` actually uses:
`ThreadPoolExecutor(max_workers=3)` at src line 377 is a literal. The function
takes no width parameter, so `args.max_workers` never reaches it. -/
def orchestrator_pool_width : Nat := 3

/-- The pacing delay `scrape_all_mod_info` actually applies per completed
fetch: `time.sleep(0.5)` at src line 387 is a literal. The function takes no
delay parameter, so `args.delay` never reaches it. -/
def orchestrator_pacing_delay : Rat := 1/2

/-- C9 (code bug): the CLI parses `--delay` and `--max-workers` with defaults
0.5 and 3, but the orchestrator hardcodes those literals instead of consuming
the parsed values, so a non-default configuration has no effect: with
`max_workers := 5` and `delay := 2` the orchestrator still uses width 3 and
delay 1/2. Only the defaults coincide with the hardcoded values. -/
theorem claim9_width_delay_not_consumed :
    default_args.max_workers = orchestrator_pool_width
    ∧ default_args.delay = orchestrator_pacing_delay
    ∧ orchestrator_pool_width ≠
        ({ default_args with max_workers := 5 } : Args).max_workers
    ∧ orchestrator_pacing_delay ≠ ({ default_args with delay := 2 } : Args).delay := by
  refine ⟨rfl, rfl, by decide, ?_⟩
  show (1 / 2 : Rat) ≠ 2
  norm_num

end ChangeLog
